import Mathlib

/-!
Verification development for the AI-newsletter ingestion/aggregation pipeline
of the content-workflow repository.

The JavaScript sources are shallowly embedded as executable Lean definitions:

* JS numbers that take part in scoring arithmetic are modelled as rationals
  (`ℚ`); every constant involved (`1.2`, `1.3`, `1.5`, keyword weights, …) is
  exactly representable, so orderings and equalities agree with the source.
* JS objects are modelled as Lean structures with optional fields where the
  source may leave a field `undefined` (`Option`), matching the JS coercions
  actually exercised (`x || 0`, `x > 0` on `undefined`, template-literal
  `null` stringification).
* Stateful module-level caches become explicit state values threaded through
  the fetch functions; the network is an explicit `Option`-valued outcome
  parameter (`none` = request/parse failure, which the source maps to the
  same recovery path).
* `Array.prototype.sort` with the source's comparator is modelled by a stable
  insertion sort over the boolean reflection of "comparator ≤ 0"; on every
  list the source can reach (all freshly computed `aiScore`s, which are
  non-negative) the comparator is a consistent total preorder, so the stable
  sorted result is uniquely determined and the model agrees with any
  conforming engine.
-/

namespace ContentWorkflow

/-- A normalized feed item.  Union of the fields produced by the Hacker News
collector, the GitHub collector and the aggregator
(`src/services/ai-newsletter/collectors/arxiv.cjs`, `src/unnamed/part_016`).
Fields a given source leaves `undefined` are `Option`/defaulted. -/
structure Item where
  id : String := ""
  type : String := ""
  title : String := ""
  url : String := ""
  domain : String := ""
  score : Option ℚ := none
  aiScore : Option ℚ := none
  importance : ℚ := 0
  text : String := ""
  description : String := ""
  author : String := ""
  timestamp : Nat := 0
  repo : String := ""
  language : Option String := none
  stars : Option ℚ := none
  forks : Option ℚ := none
  todayStars : ℚ := 0
  updated : String := ""
deriving DecidableEq, Repr

/-- Model of JS `String.prototype.toLowerCase` (the sources only lowercase
ASCII titles and keyword tables, where `Char.toLower` agrees). -/
def jsToLower (s : String) : String :=
  String.mk (s.data.map Char.toLower)

/-- Model of JS `String.prototype.includes`: `hasSub l pat` is true iff `pat`
occurs as a contiguous run inside `l`. -/
def hasSub : List Char → List Char → Bool
  | [], pat => pat.isEmpty
  | c :: t, pat => pat.isPrefixOf (c :: t) || hasSub t pat

/-- Model of JS `String.prototype.replace(pat, '')` for a plain-string
pattern: removes the first occurrence of `pat`, if any. -/
def replaceFirstAux (pat : List Char) : List Char → List Char
  | [] => []
  | c :: cs =>
    if pat.isPrefixOf (c :: cs) then (c :: cs).drop pat.length
    else c :: replaceFirstAux pat cs

/-- String wrapper around `replaceFirstAux`. -/
def jsReplaceFirst (s pat : String) : String :=
  String.mk (replaceFirstAux pat.data s.data)

/-- Helper for `hostnameOf`: drop everything up to and including the first
occurrence of `pat`; `none` if `pat` does not occur. -/
def dropThroughAux (pat : List Char) : List Char → Option (List Char)
  | [] => none
  | c :: cs =>
    if pat.isPrefixOf (c :: cs) then some ((c :: cs).drop pat.length)
    else dropThroughAux pat cs

/-- Model of the platform builtin `new URL(u).hostname` on the absolute
http(s) URLs the collectors handle: the text after `"://"` up to the first
path/port/query/fragment delimiter. -/
def hostnameOf (url : String) : String :=
  let rest := (dropThroughAux "://".data url.data).getD url.data
  String.mk (rest.takeWhile fun c => !(c == '/' || c == ':' || c == '?' || c == '#'))

/-- The aggregator's weighted keyword table `AI_KEYWORDS`
(`src/unnamed/part_016` lines 190-206). -/
def AI_KEYWORDS : List (String × ℚ) :=
  [("ai", 1), ("llm", 2), ("gpt", 2), ("claude", 2), ("agent", 2),
   ("machine learning", 1.5), ("neural", 1.5), ("deep learning", 1.5),
   ("automation", 1), ("generative", 1.5), ("copilot", 1), ("langchain", 2),
   ("rag", 2), ("vector", 1.5), ("embedding", 2)]

/-- The aggregator's `calculateAIScore` (`src/unnamed/part_016` lines
209-220): sum of the weights of the keywords occurring in the lowercased
text. -/
def calculateAIScore (text : String) : ℚ :=
  let lower := jsToLower text
  AI_KEYWORDS.foldl (fun score kw => if hasSub lower.data kw.1.data then score + kw.2 else score) 0

/-- The aggregator's `calculateImportance` (`src/unnamed/part_016` lines
294-305).  `item.score || 0` is `score.getD 0`; the `typeWeight` table lookup
with `|| 1` fallback is the nested conditional; `item.aiScore > 0` is false
in JS when the field is `undefined`, hence `aiScore.getD 0`. -/
def calculateImportance (item : Item) : ℚ :=
  let s := item.score.getD 0
  let s := s * (if item.type = "hn" then 1.2 else if item.type = "github" then 1.3 else 1)
  if 0 < item.aiScore.getD 0 then s * 1.5 else s

/-- Step 2 of `aggregate` (`src/unnamed/part_016` lines 233-247): tag the
Hacker News items with `type: 'hn'` and `text = title + ' ' + domain`, the
GitHub items with `type: 'github'`, `domain: 'github.com'` and
`text = title + ' ' + description`, and concatenate. -/
def mergeItems (hnItems ghItems : List Item) : List Item :=
  hnItems.map (fun item => { item with type := "hn", text := item.title ++ " " ++ item.domain }) ++
  ghItems.map (fun item =>
    { item with type := "github", domain := "github.com",
                text := item.title ++ " " ++ item.description })

/-- Step 3 of `aggregate` (`src/unnamed/part_016` lines 250-254).  In the
source both fields of the new object literal are computed from the *original*
`item` binding, so `calculateImportance` sees the pre-update `aiScore`
(`undefined` for HN items, the GitHub collector's count for GitHub items),
not the freshly computed one; the Lean record update has exactly the same
semantics. -/
def scoreItem (item : Item) : Item :=
  { item with aiScore := some (calculateAIScore item.text),
              importance := calculateImportance item }

/-- Boolean reflection of "comparator value ≤ 0" for the sort comparator of
`aggregate` (`src/unnamed/part_016` lines 257-261):
`a.aiScore > 0 && b.aiScore === 0` gives `-1`,
`a.aiScore === 0 && b.aiScore > 0` gives `1`,
otherwise `b.importance - a.importance`. -/
def jsSortLe (a b : Item) : Bool :=
  if 0 < a.aiScore.getD 0 ∧ b.aiScore.getD 0 = 0 then true
  else if a.aiScore.getD 0 = 0 ∧ 0 < b.aiScore.getD 0 then false
  else decide (b.importance ≤ a.importance)

/-- Stable insertion of `x` into `l`: `x` is placed before the first element
`y` with `le x y`.  Used to model the (specified-stable) JS array sort. -/
def insertLe (le : Item → Item → Bool) (x : Item) : List Item → List Item
  | [] => [x]
  | y :: ys => if le x y then x :: y :: ys else y :: insertLe le x ys

/-- Stable insertion sort; models `Array.prototype.sort` with a consistent
comparator (the sorted result of a stable sort is unique). -/
def insSort (le : Item → Item → Bool) : List Item → List Item
  | [] => []
  | x :: xs => insertLe le x (insSort le xs)

/-- Dedup key of `aggregate` (`src/unnamed/part_016` line 268):
`item.title.toLowerCase().substring(0, 60)` — lowercase then first 60
characters; note there is no whitespace trimming. -/
def titleKey (item : Item) : List Char :=
  ((jsToLower item.title).data).take 60

/-- The dedup loop of `aggregate` (`src/unnamed/part_016` lines 264-273):
walk the (already sorted) list keeping each item whose key has not been seen
yet. -/
def dedupGo (seen : List (List Char)) : List Item → List Item
  | [] => []
  | item :: rest =>
    if titleKey item ∈ seen then dedupGo seen rest
    else item :: dedupGo (titleKey item :: seen) rest

/-- Dedup entry point (empty seen-set). -/
def dedupByTitle (l : List Item) : List Item := dedupGo [] l

/-- The merged-scored-sorted list of an `aggregate` run, before dedup and
truncation (`src/unnamed/part_016` lines 233-261). -/
def sortedStage (hnItems ghItems : List Item) : List Item :=
  insSort jsSortLe ((mergeItems hnItems ghItems).map scoreItem)

/-- The `stats` object of `aggregate` (`src/unnamed/part_016` lines
280-285), computed over the post-truncation `result`. -/
structure AggStats where
  total : Nat
  hn : Nat
  github : Nat
  aiRelated : Nat
deriving DecidableEq, Repr

/-- Return value of `aggregate`: `{ items: result, stats }`. -/
structure AggResult where
  items : List Item
  stats : AggStats
deriving DecidableEq, Repr

/-- Core of `aggregate` (`src/unnamed/part_016` lines 223-291) as a function
of the two fetched item lists: merge, score, sort, dedup, truncate to
`limit`, and compute `stats` over the truncated result.  (The file write of
`combined.json` is persistence outside the model.) -/
def aggregateCore (hnItems ghItems : List Item) (limit : Nat) : AggResult :=
  let sortedItems := sortedStage hnItems ghItems
  let unique := dedupByTitle sortedItems
  let result := unique.take limit
  { items := result,
    stats :=
      { total := result.length,
        hn := (result.filter fun i => i.type == "hn").length,
        github := (result.filter fun i => i.type == "github").length,
        aiRelated := (result.filter fun i => decide (0 < i.aiScore.getD 0)).length } }

/-- A raw Hacker News story as returned by the item endpoint
(`src/services/ai-newsletter/collectors/arxiv.cjs` lines 201-213): `url` may
be absent (text-only posts).  The JS field `by` is rendered `author`. -/
structure Story where
  id : Nat := 0
  title : String := ""
  url : Option String := none
  score : Option ℚ := none
  author : String := ""
  time : Nat := 0
deriving DecidableEq, Repr

/-- The formatting step of `fetchTopStories`
(`src/services/ai-newsletter/collectors/arxiv.cjs` lines 203-213). -/
def mkHnItem (s : Story) : Item :=
  { id := "hn-" ++ toString s.id, type := "hn", title := s.title,
    url := s.url.getD "",
    domain := jsReplaceFirst (hostnameOf (s.url.getD "")) "www.",
    score := s.score, author := s.author, timestamp := s.time,
    text := s.title }

/-- Persisted HN cache file contents (`{ items, lastFetch }`; `loadCache`
returns `{ items: [], lastFetch: null }` when the file is missing). -/
structure HnState where
  items : List Item := []
  lastFetch : Option Nat := none
deriving DecidableEq, Repr

/-- Model of `fetchTopStories` (`src/services/ai-newsletter/collectors/arxiv.cjs`
lines 171-224) as a state transformer.  `net = some (ids, f)` models a
successful network round-trip: `ids` is the top-stories id list and `f` the
per-id item fetch (`null` results possible); `net = none` is the thrown
error handled by the `catch` (which returns `cache.items || []` — note
`[] || x` is `[]` in JS since `[]` is truthy).  The cache-hit test
`cache.items && cache.items.length > 0 && (now - cache.lastFetch) < 30min`
coerces a `null` `lastFetch` to `0`. -/
def fetchTopStories (st : HnState) (now limit : Nat)
    (net : Option (List Nat × (Nat → Option Story))) : List Item × HnState :=
  if st.items ≠ [] ∧ now - st.lastFetch.getD 0 < 1800000 then
    (st.items.take limit, st)
  else
    match net with
    | some (ids, f) =>
      let stories := (ids.take limit).map f
      let valid := (stories.filterMap fun s => s).filter fun s => !(s.url.getD "" == "")
      let items := valid.map mkHnItem
      (items, { items := items, lastFetch := some now })
    | none => (st.items, st)

/-- A raw GitHub search-API repository record, with the fields
`fetchTrendingAI` reads (`src/unnamed/part_016` lines 44-60).  `created` is
the epoch-millisecond value of `created_at` (the source parses the ISO
string with `new Date`). -/
structure Repo where
  owner : String := ""
  name : String := ""
  fullName : String := ""
  description : Option String := none
  language : Option String := none
  htmlUrl : String := ""
  stars : ℚ := 0
  forks : ℚ := 0
  created : Nat := 0
  updated : String := ""
deriving DecidableEq, Repr

/-- The GitHub collector's own keyword list (`src/unnamed/part_016` lines
136-139; `"rag"` really appears twice in the source). -/
def ghKeywords : List String :=
  ["ai", "llm", "gpt", "claude", "agent", "machine learning", "neural",
   "deep learning", "langchain", "rag", "copilot", "automation",
   "generative", "vector", "embedding", "python", "rag", "retrieval",
   "fine-tuning", "training"]

/-- The GitHub collector's `calculateAIScore` (`src/unnamed/part_016` lines
135-148): unweighted count of keyword matches. -/
def ghCalculateAIScore (text : String) : Nat :=
  ghKeywords.foldl
    (fun score w => if hasSub (jsToLower text).data w.data then score + 1 else score) 0

/-- The GitHub collector's `calculateImportance` (`src/unnamed/part_016`
lines 153-161): `stars*0.5 + forks*0.3` plus a freshness bonus for
repositories younger than 7 days. -/
def ghCalculateImportance (now : Nat) (r : Repo) : ℚ :=
  let score := r.stars * 0.5 + r.forks * 0.3
  let age : ℚ := ((now : ℚ) - (r.created : ℚ)) / 86400000
  if age < 7 then score + 50 / (age + 1) else score

/-- The mapping step of `fetchTrendingAI` (`src/unnamed/part_016` lines
44-60).  In the JS template literal and string concatenation a `null`
`description`/`language` stringifies to `"null"`, while the `description`
field itself is defaulted with `|| ''`. -/
def mkGhItem (now : Nat) (r : Repo) : Item :=
  { id := "gh-" ++ r.owner ++ "-" ++ r.name, type := "github",
    title := r.owner ++ "/" ++ r.name,
    description := r.description.getD "",
    url := r.htmlUrl, author := r.owner, repo := r.name,
    language := r.language, stars := some r.stars, forks := some r.forks,
    todayStars := 0, updated := r.updated,
    text := jsToLower (r.fullName ++ " " ++ r.description.getD "null" ++ " " ++ r.language.getD "null"),
    aiScore := some ((ghCalculateAIScore (r.description.getD "null" ++ " " ++ r.language.getD "null") : ℚ)),
    importance := ghCalculateImportance now r }

/-- The GitHub collector's module-level cache (`let cache = null;
let lastFetch = 0`). -/
structure GhState where
  cache : Option (List Item) := none
  lastFetch : Nat := 0
deriving DecidableEq, Repr

/-- Model of `fetchTrendingAI` (`src/unnamed/part_016` lines 16-77) as a state
transformer.  `net = some repos` is a successful request/parse;
`net = none` covers both the request error and the JSON parse error, which
the source maps to the same `resolve([])` without touching the cache.  The
cache-hit test is `cache && (now - lastFetch) < 4h` — any non-null cache
(even an empty array) passes. -/
def fetchTrendingAI (st : GhState) (now limit : Nat)
    (net : Option (List Repo)) : List Item × GhState :=
  if st.cache.isSome ∧ now - st.lastFetch < 14400000 then
    ((st.cache.getD []).take limit, st)
  else
    match net with
    | some raw =>
      let repos := raw.map (mkGhItem now)
      (repos.take limit, { cache := some repos, lastFetch := now })
    | none => ([], st)

/-- An arXiv paper entry with the fields the cache/dedup/sort logic of
`fetchArxiv` uses; `published` is the epoch-millisecond value of the entry's
`published` timestamp. -/
structure AItem where
  id : String := ""
  title : String := ""
  published : Nat := 0
deriving DecidableEq, Repr

/-- Persisted arXiv cache file contents
(`src/services/ai-newsletter/collectors/arxiv.cjs` lines 30-41). -/
structure AxState where
  items : List AItem := []
  lastFetch : Option Nat := none
deriving DecidableEq, Repr

/-- Stable insertion for the arXiv publish-date sort (newest first). -/
def axInsert (x : AItem) : List AItem → List AItem
  | [] => [x]
  | y :: ys => if y.published ≤ x.published then x :: y :: ys else y :: axInsert x ys

/-- Stable sort by `published` descending, modelling
`allItems.sort((a, b) => new Date(b.published) - new Date(a.published))`. -/
def axSort : List AItem → List AItem
  | [] => []
  | x :: xs => axInsert x (axSort xs)

/-- The id-dedup loop of `fetchArxiv`
(`src/services/ai-newsletter/collectors/arxiv.cjs` lines 104-112). -/
def axDedupGo (seen : List String) : List AItem → List AItem
  | [] => []
  | x :: rest =>
    if x.id ∈ seen then axDedupGo seen rest
    else x :: axDedupGo (x.id :: seen) rest

/-- Model of `fetchArxiv` (`src/services/ai-newsletter/collectors/arxiv.cjs` lines
81-126) as a state transformer.  `catResults` holds one outcome per entry of
`CATEGORIES` (four categories); a failed category fetch is caught *inside*
`fetchCategory` and becomes `[]`, so the outer `try` body always reaches
`saveCache` and the outer `catch` (stale-cache fallback) is reachable only
through a persistence error, which is outside this model.  The cache-hit
test `cache.lastFetch && (now - cache.lastFetch) < 6h` treats both a missing
and a zero `lastFetch` as falsy. -/
def fetchArxiv (st : AxState) (now limitPerCat : Nat)
    (catResults : List (Option (List AItem))) : List AItem × AxState :=
  if st.lastFetch.getD 0 ≠ 0 ∧ now - st.lastFetch.getD 0 < 21600000 then
    (st.items.take (limitPerCat * 4), st)
  else
    let allItems := (catResults.map fun r => r.getD []).flatten
    let uniqueItems := axDedupGo [] (axSort allItems)
    (uniqueItems, { items := uniqueItems, lastFetch := some now })

/-- The set of sources visible to a run: the two the aggregator actually
fetches plus the RSS and arXiv collectors that exist in the repository
(`src/unnamed/part_015`, `collectors/arxiv.cjs`) but are not imported by the
aggregator module. -/
structure SourceEnv where
  hn : List Item := []
  gh : List Item := []
  rss : List Item := []
  arxiv : List AItem := []

/-- The `aggregate` entry point (`src/unnamed/part_016` lines 223-291) seen
against the full source environment: the source's `Promise.all` invokes exactly
`fetchTopStories(30)` and `fetchTrendingAI(10)`; no other collector is
called, so the body only reads `env.hn` and `env.gh`. -/
def aggregateOfEnv (env : SourceEnv) (limit : Nat) : AggResult :=
  aggregateCore env.hn env.gh limit

/-- A full `aggregate` run through the cached fetchers, with the source's
fixed per-source limits (`fetchTopStories(30)`, `fetchTrendingAI(10)`). -/
def aggregateRun (hnSt : HnState) (ghSt : GhState) (now : Nat)
    (hnNet : Option (List Nat × (Nat → Option Story)))
    (ghNet : Option (List Repo)) (limit : Nat) : AggResult :=
  aggregateCore (fetchTopStories hnSt now 30 hnNet).1 (fetchTrendingAI ghSt now 10 ghNet).1 limit

/-- Events observable by the scheduling loop: a cron trigger firing, and a
pipeline run completing. -/
inductive SchedEvent where
  | trigger
  | finish
deriving DecidableEq, Repr

/-- Effect of one event on the number of in-flight pipeline runs, translated
from `startScheduler` (`src/services/ai-newsletter/scheduler.js` lines
76-90): the cron callback `async () => { await generateTodayBriefing();
await generateTodayArticle(); }` consults no state whatsoever — there is no
`Idle`/`Running` flag anywhere in the file — so a trigger unconditionally
starts a run (the cron library fires the callback on schedule without
awaiting earlier invocations). -/
def schedStep (active : Nat) : SchedEvent → Nat
  | SchedEvent.trigger => active + 1
  | SchedEvent.finish => active - 1

/-- In-flight run count after a sequence of events starting from `init`. -/
def activeRunsFrom (init : Nat) (events : List SchedEvent) : Nat :=
  events.foldl schedStep init

/-- Boot state: `startScheduler` also launches one run immediately at boot
(`scheduler.js` lines 88-89), so one run is in flight right after start. -/
def startSchedulerInit : Nat := 1

/-! ### Generic lemmas about the stable sort -/

theorem mem_insertLe {le : Item → Item → Bool} {x a : Item} :
    ∀ {l : List Item}, a ∈ insertLe le x l ↔ a = x ∨ a ∈ l := by
  intro l
  induction l with
  | nil => simp [insertLe]
  | cons y ys ih =>
    by_cases h : le x y
    · simp [insertLe, h, List.mem_cons]
    · simp only [insertLe, if_neg h, List.mem_cons, ih]
      tauto

theorem mem_insSort {le : Item → Item → Bool} {a : Item} :
    ∀ {l : List Item}, a ∈ insSort le l ↔ a ∈ l := by
  intro l
  induction l with
  | nil => simp [insSort]
  | cons y ys ih => simp [insSort, mem_insertLe, ih, List.mem_cons]

theorem pairwise_insertLe (le : Item → Item → Bool) (Q : Item → Prop)
    (total : ∀ a b, Q a → Q b → le a b = true ∨ le b a = true)
    (htrans : ∀ a b c, Q a → Q b → Q c → le a b = true → le b c = true → le a c = true)
    (x : Item) (hx : Q x) :
    ∀ (l : List Item), (∀ a ∈ l, Q a) → l.Pairwise (le · · = true) →
      (insertLe le x l).Pairwise (le · · = true) := by
  intro l
  induction l with
  | nil => intro _ _; simp [insertLe]
  | cons y ys ih =>
    intro hl h
    have hy : Q y := hl y (List.mem_cons_self y ys)
    have hys : ∀ a ∈ ys, Q a := fun a ha => hl a (List.mem_cons_of_mem y ha)
    rcases List.pairwise_cons.mp h with ⟨hyall, hpys⟩
    by_cases hxy : le x y = true
    · rw [insertLe, if_pos hxy]
      refine List.pairwise_cons.mpr ⟨?_, h⟩
      intro b hb
      rcases List.mem_cons.mp hb with rfl | hb
      · exact hxy
      · exact htrans x y b hx hy (hys b hb) hxy (hyall b hb)
    · rw [insertLe, if_neg hxy]
      refine List.pairwise_cons.mpr ⟨?_, ih hys hpys⟩
      intro b hb
      rcases mem_insertLe.mp hb with hbe | hb
      · rcases total x y hx hy with h1 | h1
        · exact absurd h1 hxy
        · rw [hbe]
          exact h1
      · exact hyall b hb

theorem pairwise_insSort (le : Item → Item → Bool) (Q : Item → Prop)
    (total : ∀ a b, Q a → Q b → le a b = true ∨ le b a = true)
    (htrans : ∀ a b c, Q a → Q b → Q c → le a b = true → le b c = true → le a c = true) :
    ∀ (l : List Item), (∀ a ∈ l, Q a) → (insSort le l).Pairwise (le · · = true) := by
  intro l
  induction l with
  | nil => intro _; simp [insSort]
  | cons x xs ih =>
    intro hl
    have hxs : ∀ a ∈ xs, Q a := fun a ha => hl a (List.mem_cons_of_mem x ha)
    refine pairwise_insertLe le Q total htrans x (hl x (List.mem_cons_self x xs)) _ ?_ (ih hxs)
    intro a ha
    exact hxs a (mem_insSort.mp ha)

/-! ### The comparator is a total preorder on non-negatively scored items -/

theorem jsSortLe_total (a b : Item) : jsSortLe a b = true ∨ jsSortLe b a = true := by
  by_cases hA : 0 < a.aiScore.getD 0 <;> by_cases hB : 0 < b.aiScore.getD 0 <;>
    by_cases hA0 : a.aiScore.getD 0 = 0 <;> by_cases hB0 : b.aiScore.getD 0 = 0 <;>
    rcases le_total b.importance a.importance with h | h <;>
    simp_all [jsSortLe]

theorem jsSortLe_pos_zero {a b : Item} (hA : 0 < a.aiScore.getD 0)
    (hB : b.aiScore.getD 0 = 0) : jsSortLe a b = true := by
  rw [jsSortLe, if_pos ⟨hA, hB⟩]

theorem jsSortLe_zero_pos {a b : Item} (hA : a.aiScore.getD 0 = 0)
    (hB : 0 < b.aiScore.getD 0) : jsSortLe a b = false := by
  have h1 : ¬(0 < a.aiScore.getD 0 ∧ b.aiScore.getD 0 = 0) :=
    fun hcon => absurd hcon.1 (by rw [hA]; exact lt_irrefl 0)
  rw [jsSortLe, if_neg h1, if_pos ⟨hA, hB⟩]

theorem jsSortLe_pos_pos {a b : Item} (hA : 0 < a.aiScore.getD 0)
    (hB : 0 < b.aiScore.getD 0) :
    jsSortLe a b = decide (b.importance ≤ a.importance) := by
  have h1 : ¬(0 < a.aiScore.getD 0 ∧ b.aiScore.getD 0 = 0) :=
    fun hcon => (ne_of_gt hB) hcon.2
  have h2 : ¬(a.aiScore.getD 0 = 0 ∧ 0 < b.aiScore.getD 0) :=
    fun hcon => (ne_of_gt hA) hcon.1
  rw [jsSortLe, if_neg h1, if_neg h2]

theorem jsSortLe_zero_zero {a b : Item} (hA : a.aiScore.getD 0 = 0)
    (hB : b.aiScore.getD 0 = 0) :
    jsSortLe a b = decide (b.importance ≤ a.importance) := by
  have h1 : ¬(0 < a.aiScore.getD 0 ∧ b.aiScore.getD 0 = 0) :=
    fun hcon => absurd hcon.1 (by rw [hA]; exact lt_irrefl 0)
  have h2 : ¬(a.aiScore.getD 0 = 0 ∧ 0 < b.aiScore.getD 0) :=
    fun hcon => absurd hcon.2 (by rw [hB]; exact lt_irrefl 0)
  rw [jsSortLe, if_neg h1, if_neg h2]

theorem jsSortLe_trans (a b c : Item)
    (ha : 0 ≤ a.aiScore.getD 0) (hb : 0 ≤ b.aiScore.getD 0) (hc : 0 ≤ c.aiScore.getD 0)
    (h1 : jsSortLe a b = true) (h2 : jsSortLe b c = true) : jsSortLe a c = true := by
  rcases ha.lt_or_eq with hA | hA <;> rcases hb.lt_or_eq with hB | hB <;>
    rcases hc.lt_or_eq with hC | hC
  · rw [jsSortLe_pos_pos hA hB] at h1
    rw [jsSortLe_pos_pos hB hC] at h2
    rw [jsSortLe_pos_pos hA hC, decide_eq_true_eq]
    exact le_trans (of_decide_eq_true h2) (of_decide_eq_true h1)
  · exact jsSortLe_pos_zero hA hC.symm
  · rw [jsSortLe_zero_pos hB.symm hC] at h2
    exact absurd h2 (by simp)
  · exact jsSortLe_pos_zero hA hC.symm
  · rw [jsSortLe_zero_pos hA.symm hB] at h1
    exact absurd h1 (by simp)
  · rw [jsSortLe_zero_pos hA.symm hB] at h1
    exact absurd h1 (by simp)
  · rw [jsSortLe_zero_pos hB.symm hC] at h2
    exact absurd h2 (by simp)
  · rw [jsSortLe_zero_zero hA.symm hB.symm] at h1
    rw [jsSortLe_zero_zero hB.symm hC.symm] at h2
    rw [jsSortLe_zero_zero hA.symm hC.symm, decide_eq_true_eq]
    exact le_trans (of_decide_eq_true h2) (of_decide_eq_true h1)

/-- One sorted-order pair of the comparator, read back as the claim's
two-tier property (needs only that the later item's score is
non-negative). -/
theorem jsSortLe_two_tier (a b : Item) (hb : 0 ≤ b.aiScore.getD 0)
    (h : jsSortLe a b = true) :
    (a.aiScore.getD 0 = 0 → b.aiScore.getD 0 = 0) ∧
      ((0 < a.aiScore.getD 0 ↔ 0 < b.aiScore.getD 0) → b.importance ≤ a.importance) := by
  by_cases h1 : 0 < a.aiScore.getD 0 ∧ b.aiScore.getD 0 = 0
  · refine ⟨fun hz => absurd h1.1 (by rw [hz]; exact lt_irrefl 0), fun hiff => ?_⟩
    exact absurd (hiff.mp h1.1) (by rw [h1.2]; exact lt_irrefl 0)
  · by_cases h2 : a.aiScore.getD 0 = 0 ∧ 0 < b.aiScore.getD 0
    · rw [jsSortLe, if_neg h1, if_pos h2] at h
      exact absurd h (by simp)
    · rw [jsSortLe, if_neg h1, if_neg h2] at h
      exact ⟨fun hz => by_contra fun hbz => h2 ⟨hz, lt_of_le_of_ne hb (Ne.symm hbz)⟩,
        fun _ => by simpa using h⟩

/-! ### Non-negativity of the computed relevance -/

theorem foldl_keyword_nonneg (lower : String) :
    ∀ (kws : List (String × ℚ)) (acc : ℚ), 0 ≤ acc → (∀ kw ∈ kws, 0 ≤ kw.2) →
      0 ≤ kws.foldl
        (fun score kw => if hasSub lower.data kw.1.data then score + kw.2 else score) acc := by
  intro kws
  induction kws with
  | nil => intro acc hacc _; simpa using hacc
  | cons k ks ih =>
    intro acc hacc hw
    rw [List.foldl_cons]
    by_cases hk : hasSub lower.data k.1.data
    · rw [if_pos hk]
      exact ih _ (add_nonneg hacc (hw k (List.mem_cons_self k ks)))
        (fun kw hkw => hw kw (List.mem_cons_of_mem k hkw))
    · rw [if_neg hk]
      exact ih _ hacc (fun kw hkw => hw kw (List.mem_cons_of_mem k hkw))

theorem calculateAIScore_nonneg (t : String) : 0 ≤ calculateAIScore t := by
  refine foldl_keyword_nonneg _ AI_KEYWORDS 0 (le_refl 0) ?_
  intro kw hkw
  fin_cases hkw <;> norm_num

/-! ### Dedup lemmas -/

theorem dedupGo_sublist : ∀ (l : List Item) (seen : List (List Char)),
    (dedupGo seen l).Sublist l := by
  intro l
  induction l with
  | nil => intro seen; simp [dedupGo]
  | cons x xs ih =>
    intro seen
    by_cases h : titleKey x ∈ seen
    · rw [dedupGo, if_pos h]
      exact (ih seen).cons x
    · rw [dedupGo, if_neg h]
      exact (ih _).cons₂ x

theorem dedupGo_key_not_seen : ∀ (l : List Item) (seen : List (List Char)) (x : Item),
    x ∈ dedupGo seen l → titleKey x ∉ seen := by
  intro l
  induction l with
  | nil => intro seen x hx; simp [dedupGo] at hx
  | cons y ys ih =>
    intro seen x hx
    by_cases h : titleKey y ∈ seen
    · rw [dedupGo, if_pos h] at hx
      exact ih seen x hx
    · rw [dedupGo, if_neg h] at hx
      rcases List.mem_cons.mp hx with hxe | hx
      · rw [hxe]
        exact h
      · have := ih _ x hx
        exact fun hc => this (List.mem_cons_of_mem _ hc)

theorem dedupGo_keys_nodup : ∀ (l : List Item) (seen : List (List Char)),
    ((dedupGo seen l).map titleKey).Nodup := by
  intro l
  induction l with
  | nil => intro seen; simp [dedupGo]
  | cons y ys ih =>
    intro seen
    by_cases h : titleKey y ∈ seen
    · rw [dedupGo, if_pos h]
      exact ih seen
    · rw [dedupGo, if_neg h]
      rw [List.map_cons, List.nodup_cons]
      refine ⟨?_, ih _⟩
      intro hc
      rcases List.mem_map.mp hc with ⟨x, hx, hk⟩
      exact (dedupGo_key_not_seen ys _ x hx) (hk ▸ List.mem_cons_self _ _)

theorem dedupGo_find? : ∀ (l : List Item) (seen : List (List Char)) (k : List Char),
    k ∉ seen →
      (dedupGo seen l).find? (fun i => titleKey i == k) =
        l.find? (fun i => titleKey i == k) := by
  intro l
  induction l with
  | nil => intro seen k _; simp [dedupGo]
  | cons x xs ih =>
    intro seen k hk
    by_cases h : titleKey x ∈ seen
    · rw [dedupGo, if_pos h]
      have hne : (titleKey x == k) = false := by
        simp only [beq_eq_false_iff_ne, ne_eq]
        intro hc
        exact hk (hc ▸ h)
      rw [List.find?_cons_of_neg _ (by simp [hne]), ih seen k hk]
    · rw [dedupGo, if_neg h]
      by_cases hxk : titleKey x = k
      · have hpos : (titleKey x == k) = true := beq_iff_eq.mpr hxk
        rw [List.find?_cons_of_pos (p := fun i => titleKey i == k) _ hpos,
          List.find?_cons_of_pos (p := fun i => titleKey i == k) _ hpos]
      · have hne : (titleKey x == k) = false := beq_eq_false_iff_ne.mpr hxk
        rw [List.find?_cons_of_neg (p := fun i => titleKey i == k) _ (by simp [hne]),
          List.find?_cons_of_neg (p := fun i => titleKey i == k) _ (by simp [hne])]
        refine ih _ k ?_
        intro hc
        rcases List.mem_cons.mp hc with hce | hce
        · exact hxk hce.symm
        · exact hk hce

/-! ### Shape facts about the aggregation pipeline -/

theorem scoreItem_aiScore (i : Item) :
    (scoreItem i).aiScore = some (calculateAIScore i.text) := rfl

theorem scoreItem_type (i : Item) : (scoreItem i).type = i.type := rfl

theorem mem_mergeItems_type {hnItems ghItems : List Item} {x : Item}
    (hx : x ∈ mergeItems hnItems ghItems) : x.type = "hn" ∨ x.type = "github" := by
  rcases List.mem_append.mp hx with h | h <;>
    rcases List.mem_map.mp h with ⟨y, _, rfl⟩
  · exact Or.inl rfl
  · exact Or.inr rfl

theorem mem_sortedStage_nonneg {hnItems ghItems : List Item} {x : Item}
    (hx : x ∈ sortedStage hnItems ghItems) : 0 ≤ x.aiScore.getD 0 := by
  rcases List.mem_map.mp (mem_insSort.mp hx) with ⟨y, _, rfl⟩
  rw [scoreItem_aiScore]
  exact calculateAIScore_nonneg y.text

theorem mem_sortedStage_type {hnItems ghItems : List Item} {x : Item}
    (hx : x ∈ sortedStage hnItems ghItems) : x.type = "hn" ∨ x.type = "github" := by
  rcases List.mem_map.mp (mem_insSort.mp hx) with ⟨y, hy, rfl⟩
  rw [scoreItem_type]
  exact mem_mergeItems_type hy

theorem aggregateCore_items_sublist (hnItems ghItems : List Item) (limit : Nat) :
    ((aggregateCore hnItems ghItems limit).items).Sublist (sortedStage hnItems ghItems) :=
  (List.take_sublist _ _).trans (dedupGo_sublist _ _)

theorem sortedStage_pairwise (hnItems ghItems : List Item) :
    (sortedStage hnItems ghItems).Pairwise (jsSortLe · · = true) := by
  refine pairwise_insSort jsSortLe (fun i => 0 ≤ i.aiScore.getD 0)
    (fun a b _ _ => jsSortLe_total a b)
    (fun a b c ha hb hc => jsSortLe_trans a b c ha hb hc) _ ?_
  intro a ha
  rcases List.mem_map.mp ha with ⟨y, _, rfl⟩
  rw [scoreItem_aiScore]
  exact calculateAIScore_nonneg y.text

/-- Splitting a list all of whose elements are tagged `"hn"` or `"github"`
into the two tag-filtered sublists loses nothing. -/
theorem filter_hn_github_length : ∀ (l : List Item),
    (∀ x ∈ l, x.type = "hn" ∨ x.type = "github") →
      (l.filter fun i => i.type == "hn").length +
        (l.filter fun i => i.type == "github").length = l.length := by
  intro l
  induction l with
  | nil => intro _; simp
  | cons x xs ih =>
    intro h
    have hxs := fun a ha => h a (List.mem_cons_of_mem x ha)
    rcases h x (List.mem_cons_self x xs) with hx | hx
    · have e1 : ((fun i : Item => i.type == "hn") x) = true := by simp [hx]
      have e2 : ¬((fun i : Item => i.type == "github") x) = true := by simp [hx]
      rw [List.filter_cons_of_pos (p := fun i : Item => i.type == "hn") e1,
        List.filter_cons_of_neg (p := fun i : Item => i.type == "github") e2,
        List.length_cons, List.length_cons]
      have := ih hxs
      omega
    · have e1 : ¬((fun i : Item => i.type == "hn") x) = true := by simp [hx]
      have e2 : ((fun i : Item => i.type == "github") x) = true := by simp [hx]
      rw [List.filter_cons_of_neg (p := fun i : Item => i.type == "hn") e1,
        List.filter_cons_of_pos (p := fun i : Item => i.type == "github") e2,
        List.length_cons, List.length_cons]
      have := ih hxs
      omega

/-! ### Scheduler helper -/

theorem activeRunsFrom_replicate_trigger :
    ∀ (k init : Nat), activeRunsFrom init (List.replicate k SchedEvent.trigger) = init + k := by
  intro k
  induction k with
  | zero => intro init; simp [activeRunsFrom]
  | succ n ih =>
    intro init
    rw [List.replicate_succ, activeRunsFrom, List.foldl_cons]
    have := ih (schedStep init SchedEvent.trigger)
    rw [activeRunsFrom] at this
    rw [this, schedStep]
    omega

/-! ### Claim theorems -/

/-- Claim C1: in every result list of `aggregate`, an item with
`relevance > 0` never appears after an item with `relevance = 0`
(equivalently: whenever A has positive relevance and B zero relevance, A is
earlier, whatever their importances), and inside each of the two relevance
tiers the items are ordered by importance descending. -/
theorem c1_two_tier_sort (hnItems ghItems : List Item) (limit : Nat) :
    ((aggregateCore hnItems ghItems limit).items).Pairwise
      (fun a b => (a.aiScore.getD 0 = 0 → b.aiScore.getD 0 = 0) ∧
        ((0 < a.aiScore.getD 0 ↔ 0 < b.aiScore.getD 0) → b.importance ≤ a.importance)) := by
  have hrel := (sortedStage_pairwise hnItems ghItems).imp_of_mem
    (fun ha hb h => jsSortLe_two_tier _ _ (mem_sortedStage_nonneg hb) h)
  exact List.Pairwise.sublist (aggregateCore_items_sublist hnItems ghItems limit) hrel

set_option maxHeartbeats 2000000 in
/-- Claim C2 (counterexample): with the claim's own scenario — sources
returning "GPT-5 Released" and "gpt-5 released " (trailing space) — both
items survive `aggregate`'s dedup, because the key is only lowercased and
truncated, never whitespace-stripped; the claim says exactly one should
survive. -/
theorem c2_counterexample :
    ((aggregateCore [{ title := "GPT-5 Released", domain := "example.com", score := some 1 }]
        [{ title := "gpt-5 released " }] 50).items.map Item.title) =
      ["GPT-5 Released", "gpt-5 released "] := by
  have h1 : calculateAIScore "GPT-5 Released example.com" = 2 := by
    simp +decide [calculateAIScore, AI_KEYWORDS]
  have h2 : calculateAIScore "gpt-5 released  " = 2 := by
    simp +decide [calculateAIScore, AI_KEYWORDS]
  have k1 : ((jsToLower "GPT-5 Released").data).take 60 = "gpt-5 released".data := by
    decide
  have k2 : ((jsToLower "gpt-5 released ").data).take 60 = "gpt-5 released ".data := by
    decide
  have kne : ("gpt-5 released ".data : List Char) ≠ "gpt-5 released".data := by
    decide
  have hgh : ("github" : String) ≠ "hn" := by simp
  have ha1 : ("GPT-5 Released" ++ " " ++ "example.com" : String) = "GPT-5 Released example.com" := rfl
  have ha2 : ("gpt-5 released " ++ " " ++ "" : String) = "gpt-5 released  " := rfl
  have ha3 : ("gpt-5 released " ++ " " : String) = "gpt-5 released  " := rfl
  norm_num [aggregateCore, sortedStage, mergeItems, scoreItem, calculateImportance,
    insSort, insertLe, dedupByTitle, dedupGo, titleKey, jsSortLe, h1, h2, k1, k2, kne, hgh,
    ha1, ha2, ha3]

/-- Claim C2 (amended): `aggregate` deduplicates the *sorted* scored list
(not the merged input order) by the key "lowercased title truncated to 60
characters" with no whitespace stripping; the first occurrence *in sorted
order* of each key is kept: the surviving representative of a key is exactly
what `find?` locates first in the sorted list, and the surviving keys are
pairwise distinct. -/
theorem c2_dedup_semantics (hnItems ghItems : List Item) (limit : Nat) :
    (aggregateCore hnItems ghItems limit).items =
      (dedupByTitle (sortedStage hnItems ghItems)).take limit ∧
    ((dedupByTitle (sortedStage hnItems ghItems)).map titleKey).Nodup ∧
    ∀ k : List Char,
      (dedupByTitle (sortedStage hnItems ghItems)).find? (fun i => titleKey i == k) =
        (sortedStage hnItems ghItems).find? (fun i => titleKey i == k) := by
  refine ⟨rfl, dedupGo_keys_nodup _ _, fun k => dedupGo_find? _ _ k ?_⟩
  exact List.not_mem_nil k

/-- Claim C4 (counterexample): an environment in which the RSS collector has
an item and the arXiv collector has a paper, while HN and GitHub are empty,
still yields an empty aggregated feed — `aggregate` does not merge the RSS
or arXiv items (it never invokes those collectors). -/
theorem c4_counterexample :
    (aggregateOfEnv
      { hn := [], gh := [], rss := [{ title := "RSS only story" }],
        arxiv := [{ id := "2401.00001" }] } 50).items = [] ∧
    ({ hn := [], gh := [], rss := [{ title := "RSS only story" }],
        arxiv := [{ id := "2401.00001" }] } : SourceEnv).rss ≠ [] := by
  constructor
  · rfl
  · simp

/-- Claim C4 (amended): `aggregate` invokes only the Hacker News and GitHub
cached fetches; its output is completely independent of the RSS and arXiv
collectors (which exist in the repository but are never called by the
aggregator), and every item it returns is tagged `hn` or `github` — `stats`
carries per-kind counts only for those two kinds. -/
theorem c4_only_hn_github (env : SourceEnv) (limit : Nat)
    (rssAlt : List Item) (arxivAlt : List AItem) :
    aggregateOfEnv { env with rss := rssAlt, arxiv := arxivAlt } limit =
      aggregateOfEnv env limit ∧
    ∀ x ∈ (aggregateOfEnv env limit).items, x.type = "hn" ∨ x.type = "github" := by
  refine ⟨rfl, fun x hx => ?_⟩
  exact mem_sortedStage_type
    ((aggregateCore_items_sublist env.hn env.gh limit).subset hx)

/-- Witness for the hypothesis-bearing part of `c4_only_hn_github`. -/
theorem c4_witness :
    aggregateOfEnv { hn := [], gh := [], rss := [{ title := "r" }], arxiv := [] } 3 =
      aggregateOfEnv { hn := [], gh := [], rss := [], arxiv := [] } 3 ∧
    ∀ x ∈ (aggregateOfEnv { hn := [], gh := [], rss := [], arxiv := [] } 3).items,
      x.type = "hn" ∨ x.type = "github" :=
  c4_only_hn_github { hn := [], gh := [], rss := [], arxiv := [] } 3
    [{ title := "r" }] []

/-- Claim C5: a per-source fetch failure with no cache never aborts
`aggregate`: the run still returns a result, the failing source contributes
no items, and its per-kind count in `stats` is exactly 0 (shown for a
GitHub failure with empty cache and, symmetrically, for an HN failure with
empty cache). -/
theorem c5_source_failure_tolerance (hnSt : HnState) (ghSt : GhState)
    (now limit : Nat) (hnNet : Option (List Nat × (Nat → Option Story)))
    (ghNet : Option (List Repo)) :
    ((aggregateRun hnSt { cache := none, lastFetch := 0 } now hnNet none limit).stats.github = 0 ∧
      ∀ x ∈ (aggregateRun hnSt { cache := none, lastFetch := 0 } now hnNet none limit).items,
        x.type = "hn") ∧
    (aggregateRun { items := [], lastFetch := none } ghSt now none ghNet limit).stats.hn = 0 := by
  have hg : (fetchTrendingAI { cache := none, lastFetch := 0 } now 10 none).1 = [] := by
    simp [fetchTrendingAI]
  have hh : (fetchTopStories { items := [], lastFetch := none } now 30 none).1 = [] := by
    simp [fetchTopStories]
  refine ⟨⟨?_, ?_⟩, ?_⟩
  · show ((aggregateCore (fetchTopStories hnSt now 30 hnNet).1
      (fetchTrendingAI { cache := none, lastFetch := 0 } now 10 none).1 limit).stats.github) = 0
    rw [hg]
    apply List.length_eq_zero.mpr
    rw [List.filter_eq_nil_iff]
    intro a ha
    have htype := mem_sortedStage_type
      ((aggregateCore_items_sublist (fetchTopStories hnSt now 30 hnNet).1 [] limit).subset ha)
    have hhn : a.type = "hn" := by
      rcases htype with h | h
      · exact h
      · exfalso
        rcases List.mem_map.mp
          (mem_insSort.mp
            ((aggregateCore_items_sublist (fetchTopStories hnSt now 30 hnNet).1 [] limit).subset ha))
          with ⟨y, hy, rfl⟩
        rw [scoreItem_type] at h
        rcases List.mem_append.mp hy with hmem | hmem
        · rcases List.mem_map.mp hmem with ⟨z, _, rfl⟩
          simp at h
        · rcases List.mem_map.mp hmem with ⟨z, hz, rfl⟩
          simp at hz
    simp [hhn]
  · intro x hx
    rw [show aggregateRun hnSt { cache := none, lastFetch := 0 } now hnNet none limit =
      aggregateCore (fetchTopStories hnSt now 30 hnNet).1 [] limit from by rw [aggregateRun, hg]] at hx
    rcases List.mem_map.mp
      (mem_insSort.mp
        ((aggregateCore_items_sublist (fetchTopStories hnSt now 30 hnNet).1 [] limit).subset hx))
      with ⟨y, hy, rfl⟩
    rw [scoreItem_type]
    rcases List.mem_append.mp hy with hmem | hmem
    · rcases List.mem_map.mp hmem with ⟨z, _, rfl⟩
      rfl
    · rcases List.mem_map.mp hmem with ⟨z, hz, rfl⟩
      simp at hz
  · show ((aggregateCore (fetchTopStories { items := [], lastFetch := none } now 30 none).1
      (fetchTrendingAI ghSt now 10 ghNet).1 limit).stats.hn) = 0
    rw [hh]
    apply List.length_eq_zero.mpr
    rw [List.filter_eq_nil_iff]
    intro a ha
    rcases List.mem_map.mp
      (mem_insSort.mp
        ((aggregateCore_items_sublist [] (fetchTrendingAI ghSt now 10 ghNet).1 limit).subset ha))
      with ⟨y, hy, rfl⟩
    rcases List.mem_append.mp hy with hmem | hmem
    · rcases List.mem_map.mp hmem with ⟨z, hz, rfl⟩
      simp at hz
    · rcases List.mem_map.mp hmem with ⟨z, _, rfl⟩
      simp [scoreItem_type]

/-- Witness for the hypothesis-bearing part of
`c5_source_failure_tolerance`. -/
theorem c5_witness :
    ((aggregateRun { items := [{ title := "story" }], lastFetch := some 0 }
        { cache := none, lastFetch := 0 } 5 none none 20).stats.github = 0 ∧
      ∀ x ∈ (aggregateRun { items := [{ title := "story" }], lastFetch := some 0 }
        { cache := none, lastFetch := 0 } 5 none none 20).items, x.type = "hn") ∧
    (aggregateRun { items := [], lastFetch := none } { cache := none, lastFetch := 0 }
      5 none none 20).stats.hn = 0 :=
  c5_source_failure_tolerance { items := [{ title := "story" }], lastFetch := some 0 }
    { cache := none, lastFetch := 0 } 5 20 none none

/-- Claim C10: `aggregate`'s stats are computed over the post-truncation
result: `total` is the length of the returned list, the `hn` and `github`
counts add up to `total`, and `aiRelated` never exceeds `total`. -/
theorem c10_stats_post_truncation (hnItems ghItems : List Item) (limit : Nat) :
    (aggregateCore hnItems ghItems limit).stats.total =
      (aggregateCore hnItems ghItems limit).items.length ∧
    (aggregateCore hnItems ghItems limit).stats.hn +
      (aggregateCore hnItems ghItems limit).stats.github =
      (aggregateCore hnItems ghItems limit).stats.total ∧
    (aggregateCore hnItems ghItems limit).stats.aiRelated ≤
      (aggregateCore hnItems ghItems limit).stats.total := by
  refine ⟨rfl, ?_, List.length_filter_le _ _⟩
  apply filter_hn_github_length
  intro x hx
  exact mem_sortedStage_type
    ((aggregateCore_items_sublist hnItems ghItems limit).subset hx)

/-- Claim C3 (counterexample): with an expired cache holding one item, a
failed GitHub fetch returns the empty list, not the stale cached items; and
a run of the arXiv fetch past its TTL in which every category fetch fails
*overwrites* the persisted cache with an empty item list and a fresh
`lastFetch` instead of leaving it unchanged. -/
theorem c3_counterexample :
    (fetchTrendingAI { cache := some [{ title := "cached repo" }], lastFetch := 0 }
        100000000 10 none).1 = [] ∧
    (fetchTrendingAI { cache := some [{ title := "cached repo" }], lastFetch := 0 }
        100000000 10 none).1 ≠ [{ title := "cached repo" }] ∧
    (fetchArxiv { items := [{ id := "2401.00001" }], lastFetch := some 1 }
        100000000 10 [none, none, none, none]).2 ≠
      { items := [{ id := "2401.00001" }], lastFetch := some 1 } ∧
    (fetchArxiv { items := [{ id := "2401.00001" }], lastFetch := some 1 }
        100000000 10 [none, none, none, none]).2 =
      { items := [], lastFetch := some 100000000 } := by
  have hg : ¬(({ cache := some [{ title := "cached repo" }], lastFetch := 0 } : GhState).cache.isSome ∧
      100000000 - ({ cache := some [{ title := "cached repo" }], lastFetch := 0 } : GhState).lastFetch < 14400000) :=
    fun hc => absurd hc.2 (by simp)
  have hx : ¬(({ items := [{ id := "2401.00001" }], lastFetch := some 1 } : AxState).lastFetch.getD 0 ≠ 0 ∧
      100000000 - ({ items := [{ id := "2401.00001" }], lastFetch := some 1 } : AxState).lastFetch.getD 0 < 21600000) :=
    fun hc => absurd hc.2 (by simp)
  refine ⟨?_, ?_, ?_, ?_⟩
  · rw [fetchTrendingAI, if_neg hg]
  · rw [fetchTrendingAI, if_neg hg]
    simp
  · rw [fetchArxiv, if_neg hx]
    simp [AxState.mk.injEq]
  · rw [fetchArxiv, if_neg hx]
    rfl

/-- Claim C3 (amended): on a failed fetch the HN client leaves its cache
unchanged and falls back to the cached items (truncated on a cache hit, the
whole cached list otherwise — an empty list, not an error, when no cache
exists); the GitHub client leaves its cache unchanged but returns the empty
list rather than the stale items; the arXiv client, once past its TTL with
every category fetch failing, *replaces* its cache with an empty item list
and a fresh `lastFetch`; no client ever propagates a fetch error. -/
theorem c3_failure_semantics (hnSt : HnState) (ghSt : GhState) (axSt : AxState)
    (now limit : Nat) :
    ((fetchTopStories hnSt now limit none).2 = hnSt ∧
      ((fetchTopStories hnSt now limit none).1 = hnSt.items.take limit ∨
        (fetchTopStories hnSt now limit none).1 = hnSt.items)) ∧
    ((fetchTrendingAI ghSt now limit none).2 = ghSt ∧
      ((fetchTrendingAI ghSt now limit none).1 = (ghSt.cache.getD []).take limit ∨
        (fetchTrendingAI ghSt now limit none).1 = [])) ∧
    ((fetchArxiv axSt now limit [none, none, none, none]).2 = axSt ∨
      (fetchArxiv axSt now limit [none, none, none, none]).2 =
        { items := [], lastFetch := some now }) := by
  refine ⟨?_, ?_, ?_⟩
  · by_cases h : hnSt.items ≠ [] ∧ now - hnSt.lastFetch.getD 0 < 1800000
    · rw [fetchTopStories, if_pos h]
      exact ⟨rfl, Or.inl rfl⟩
    · rw [fetchTopStories, if_neg h]
      exact ⟨rfl, Or.inr rfl⟩
  · by_cases h : ghSt.cache.isSome ∧ now - ghSt.lastFetch < 14400000
    · rw [fetchTrendingAI, if_pos h]
      exact ⟨rfl, Or.inl rfl⟩
    · rw [fetchTrendingAI, if_neg h]
      exact ⟨rfl, Or.inr rfl⟩
  · by_cases h : axSt.lastFetch.getD 0 ≠ 0 ∧ now - axSt.lastFetch.getD 0 < 21600000
    · rw [fetchArxiv, if_pos h]
      exact Or.inl rfl
    · rw [fetchArxiv, if_neg h]
      exact Or.inr rfl

set_option maxHeartbeats 2000000 in
/-- Claim C6 (code evaluated at the failing input): an HN story titled
"Open source LLM agent toolkit" with 10 points gets computed relevance 4
(> 0) but importance `10 * 1.2 = 12`, not the claimed
`10 * 1.2 * 1.5 = 18`: the 1.5 boost in `calculateImportance` reads the
*pre-scoring* `aiScore` field (absent for HN items), not the freshly
computed relevance. -/
theorem c6_stale_boost_evaluated :
    ((aggregateCore
        [{ title := "Open source LLM agent toolkit", domain := "example.com",
           score := some 10 }] [] 50).items.map fun i => (i.aiScore, i.importance)) =
      [(some 4, 12)] := by
  have h1 : calculateAIScore "Open source LLM agent toolkit example.com" = 4 := by
    simp +decide [calculateAIScore, AI_KEYWORDS]
    norm_num
  have ha1 : ("Open source LLM agent toolkit" ++ " " ++ "example.com" : String) =
      "Open source LLM agent toolkit example.com" := rfl
  norm_num [aggregateCore, sortedStage, mergeItems, scoreItem, calculateImportance,
    insSort, insertLe, dedupByTitle, dedupGo, titleKey, jsSortLe, h1, ha1]

/-- Claim C7 (counterexample): the HN client's failure fallback returns the
whole cached list untruncated: with a 2-item expired cache, a failed
`fetchTopStories(limit = 1)` returns 2 items. -/
theorem c7_counterexample :
    ¬((fetchTopStories { items := [{ title := "a" }, { title := "b" }], lastFetch := some 0 }
        100000000 1 none).1.length ≤ 1) := by
  have h : ¬(({ items := [{ title := "a" }, { title := "b" }], lastFetch := some 0 } : HnState).items ≠ [] ∧
      100000000 - ({ items := [{ title := "a" }, { title := "b" }], lastFetch := some 0 } : HnState).lastFetch.getD 0 < 1800000) := by
    intro hc
    have := hc.2
    simp only [Option.getD_some] at this
    omega
  rw [fetchTopStories, if_neg h]
  decide

/-- Claim C7 (amended): the GitHub client returns at most `limit` items on
every path; the HN client returns at most `limit` items on the cache-hit and
successful-fetch paths, but its failure fallback returns the entire cached
item list untruncated. -/
theorem c7_limit_truncation (ghSt : GhState) (hnSt : HnState) (now limit : Nat)
    (ghNet : Option (List Repo)) (hnNet : Option (List Nat × (Nat → Option Story))) :
    (fetchTrendingAI ghSt now limit ghNet).1.length ≤ limit ∧
    ((fetchTopStories hnSt now limit hnNet).1.length ≤ limit ∨
      (fetchTopStories hnSt now limit hnNet).1 = hnSt.items) := by
  constructor
  · rcases ghNet with _ | raw <;>
      by_cases h : ghSt.cache.isSome ∧ now - ghSt.lastFetch < 14400000
    · rw [fetchTrendingAI, if_pos h]
      exact List.length_take_le _ _
    · rw [fetchTrendingAI, if_neg h]
      simp
    · rw [fetchTrendingAI, if_pos h]
      exact List.length_take_le _ _
    · rw [fetchTrendingAI, if_neg h]
      exact List.length_take_le _ _
  · rcases hnNet with _ | ⟨ids, f⟩ <;>
      by_cases h : hnSt.items ≠ [] ∧ now - hnSt.lastFetch.getD 0 < 1800000
    · rw [fetchTopStories, if_pos h]
      exact Or.inl (List.length_take_le _ _)
    · rw [fetchTopStories, if_neg h]
      exact Or.inr rfl
    · rw [fetchTopStories, if_pos h]
      exact Or.inl (List.length_take_le _ _)
    · rw [fetchTopStories, if_neg h]
      refine Or.inl ?_
      show (List.map mkHnItem
        (List.filter (fun s => !s.url.getD "" == "")
          (List.filterMap (fun s => s) (List.map f (List.take limit ids))))).length ≤ limit
      rw [List.length_map]
      refine le_trans (List.length_filter_le _ _) ?_
      refine le_trans (List.length_filterMap_le _ _) ?_
      rw [List.length_map]
      exact List.length_take_le _ _

/-- Claim C8 (counterexample): if the daily trigger fires while the boot run
is still in progress, two runs are concurrently in flight — the trigger is
not dropped, refuting "at most one run is ever Running". -/
theorem c8_counterexample :
    ¬(activeRunsFrom startSchedulerInit [SchedEvent.trigger] ≤ 1) := by
  decide

/-- Claim C8 (amended): the scheduler installs the daily cron job and an
immediate boot run, but contains no `Idle`/`Running` guard: a trigger always
starts one more run no matter how many are already in flight, so `k`
triggers during the boot run leave `1 + k` concurrent runs (nothing is
dropped or queued). -/
theorem c8_no_overlap_guard :
    (∀ active : Nat, schedStep active SchedEvent.trigger = active + 1) ∧
    ∀ k : Nat, activeRunsFrom startSchedulerInit (List.replicate k SchedEvent.trigger) = 1 + k := by
  refine ⟨fun _ => rfl, fun k => ?_⟩
  rw [activeRunsFrom_replicate_trigger]
  rfl

/-- Claim C9: on a fresh (non-cached) fetch the HN client keeps only stories
that carry a (non-empty) `url` — `null` stories and url-less stories are
silently dropped — so every returned item has a non-empty `url` and a
`domain` derived from it. -/
theorem c9_hn_fresh_url_filter (st : HnState) (now limit : Nat) (ids : List Nat)
    (f : Nat → Option Story)
    (hmiss : ¬(st.items ≠ [] ∧ now - st.lastFetch.getD 0 < 1800000)) :
    ∀ x ∈ (fetchTopStories st now limit (some (ids, f))).1,
      x.url ≠ "" ∧ x.domain = jsReplaceFirst (hostnameOf x.url) "www." := by
  intro x hx
  rw [fetchTopStories, if_neg hmiss] at hx
  rcases List.mem_map.mp hx with ⟨s, hs, rfl⟩
  have hurl : ¬(s.url.getD "" == "") = true := by
    have := List.of_mem_filter hs
    simpa using this
  refine ⟨by simpa using hurl, rfl⟩

/-- Witness for `c9_hn_fresh_url_filter` at a concrete fresh fetch. -/
theorem c9_witness :
    ¬((({ items := [], lastFetch := none } : HnState).items ≠ [] ∧
        5 - ({ items := [], lastFetch := none } : HnState).lastFetch.getD 0 < 1800000)) ∧
    ∀ x ∈ (fetchTopStories { items := [], lastFetch := none } 5 2
        (some ([1],
          fun i => if i = 1 then
            some { id := 1, title := "A", url := some "https://www.example.com/x" }
          else none))).1,
      x.url ≠ "" ∧ x.domain = jsReplaceFirst (hostnameOf x.url) "www." := by
  refine ⟨by simp, ?_⟩
  exact c9_hn_fresh_url_filter { items := [], lastFetch := none } 5 2 [1]
    (fun i => if i = 1 then
      some { id := 1, title := "A", url := some "https://www.example.com/x" }
    else none) (by simp)

end ContentWorkflow
